import Mathlib

/-!
Verification of the permit-core access-control engine.

Shallow embedding of the TypeScript sources under `src/src/`:

* `src/src/core/access-control.ts` — `AccessControl.checkPermissions`,
  `Role`, `Group`, `Permission.getRules`, `Role.assignGroup`,
  `Group.assignRole`, `Role.getPermissions`;
* `src/src/permissions/route/route-permission.ts` —
  `RouteAccessPermission.getRulesByAction`;
* `src/src/permissions/component/component-permission.ts` —
  `ComponentAccessPermission.getRulesByAction`;
* `src/src/permissions/list/list-permission.ts` —
  `ListAccessPermission.getRulesByAction` / `getAccessibleList`;
* `src/src/utilities/array-utils.ts` — `mergeArrays`, `findSharedMembers`.

JavaScript `RegExp | string` pattern fields are embedded as an inductive
with the regular expression abstracted to its `test` function; machine
behaviour that matters to the claims (iteration order, accumulator
resets, per-item filtering, callback dispatch) is translated loop by
loop from the source.
-/

namespace PermitCore

/-- A rule pattern field of type `string | RegExp`.  A `RegExp` is
abstracted to its `test` function; a string pattern is kept as the
string compared with `===`. -/
inductive Pattern where
  | regex (test : String → Bool)
  | exact (s : String)

/-- The match test the evaluators perform on a pattern field:
`rule.x instanceof RegExp && rule.x.test(s)` for the regex branch,
`rule.x === s` for the string branch. -/
def Pattern.matches : Pattern → String → Bool
  | .regex f, s => f s
  | .exact p, s => p == s

/-- `IRoutePermissionRule` from `src/src/permissions/route/route-types.ts`:
`{ route: string | RegExp; isDefault?: boolean; exclude?: boolean }`.
Absent optional booleans behave as `false`. -/
structure RoutePermissionRule where
  route : Pattern
  isDefault : Bool := false
  exclude : Bool := false

/-- Loop body of `RouteAccessPermission.getRulesByAction`
(`src/src/permissions/route/route-permission.ts`, lines 24–45): walk the
rules in order carrying `validRules`; a rule whose `route` matches the
path is appended unless its `exclude` flag is set, in which case
`validRules` is reset to the empty array and the rule itself is skipped. -/
def routeSelectGo (path : String) :
    List RoutePermissionRule → List RoutePermissionRule → List RoutePermissionRule
  | [], validRules => validRules
  | rule :: rest, validRules =>
    if rule.route.matches path then
      if rule.exclude then routeSelectGo path rest []
      else routeSelectGo path rest (validRules ++ [rule])
    else routeSelectGo path rest validRules

/-- `RouteAccessPermission.getRulesByAction` for a rule list and the
action's `route` parameter. -/
def RouteAccessPermission.getRulesByAction
    (rules : List RoutePermissionRule) (path : String) : List RoutePermissionRule :=
  routeSelectGo path rules []

/-- `IComponentPermissionRule` from
`src/src/permissions/component/component-types.ts`:
`{ actions: A[]; exclude?: boolean; identifier: RegExp | string }`. -/
structure ComponentPermissionRule where
  identifier : Pattern
  actions : List String
  exclude : Bool := false

/-- Loop body of `ComponentAccessPermission.getRulesByAction`
(`src/src/permissions/component/component-permission.ts`, lines 52–78):
a rule is a candidate (`validRule`) when its `identifier` matches the
requested identifier; a candidate whose `actions` list contains the
requested action is appended, unless `exclude` is set, in which case the
accumulator is reset and the rule skipped. -/
def componentSelectGo (identifier action : String) :
    List ComponentPermissionRule → List ComponentPermissionRule → List ComponentPermissionRule
  | [], validRules => validRules
  | rule :: rest, validRules =>
    if rule.identifier.matches identifier && rule.actions.contains action then
      if rule.exclude then componentSelectGo identifier action rest []
      else componentSelectGo identifier action rest (validRules ++ [rule])
    else componentSelectGo identifier action rest validRules

/-- `ComponentAccessPermission.getRulesByAction` for a rule list, the
action's `identifier` and its requested `action` name. -/
def ComponentAccessPermission.getRulesByAction
    (rules : List ComponentPermissionRule) (identifier action : String) :
    List ComponentPermissionRule :=
  componentSelectGo identifier action rules []

/-- A list-permission rule's `list` field of type `RegExp | string[]`:
either a regular expression (abstracted to its `test` function) or an
exact array of strings. -/
inductive RuleList where
  | regex (test : String → Bool)
  | array (items : List String)

/-- The inclusion test `(ruleList instanceof RegExp && ruleList.test(x))
|| (ruleList instanceof Array && ruleList.includes(x))` used by
`ListAccessPermission.getAccessibleList`. -/
def RuleList.matches : RuleList → String → Bool
  | .regex f, s => f s
  | .array l, s => l.contains s

/-- The keep-predicate of the exclusion filter in
`ListAccessPermission.getAccessibleList`:
`(ruleList instanceof RegExp && !ruleList.test(x)) ||
(ruleList instanceof Array && !ruleList.includes(x))`. -/
def RuleList.filterKeep : RuleList → String → Bool
  | .regex f, s => !f s
  | .array l, s => !l.contains s

/-- `ListPermissionRule` (`src/src/permissions/list/list-types`):
`{ identifier: RegExp | string; list: RegExp | string[]; exclude?: boolean }`. -/
structure ListPermissionRule where
  identifier : Pattern
  list : RuleList
  exclude : Bool := false

/-- `ListAccessPermission.getRulesByAction`
(`src/src/permissions/list/list-permission.ts`, lines 168–193): walk the
rules in order and push every rule whose `identifier` matches the
action's `identifier` parameter; no exclusion handling at this phase. -/
def listSelectGo (identifier : String) :
    List ListPermissionRule → List ListPermissionRule → List ListPermissionRule
  | [], validRules => validRules
  | rule :: rest, validRules =>
    if rule.identifier.matches identifier then
      listSelectGo identifier rest (validRules ++ [rule])
    else listSelectGo identifier rest validRules

/-- `ListAccessPermission.getRulesByAction` for a rule list and the
action's `identifier`. -/
def ListAccessPermission.getRulesByAction
    (rules : List ListPermissionRule) (identifier : String) : List ListPermissionRule :=
  listSelectGo identifier rules []

/-- Inner loop of the accumulation in
`ListAccessPermission.getAccessibleList` (both the Group branch, lines
91–110, and the Role branch, lines 118–137, run this same double loop):
for one rule, walk the requested items in order; an item matched by the
rule's `list` is pushed when `exclude` is unset, while for an `exclude`
rule the accumulator is filtered down to the entries its `list` does not
match. -/
def applyListRule (rule : ListPermissionRule) (requestedList : List String)
    (acc : List String) : List String :=
  requestedList.foldl
    (fun accessibleList requestItem =>
      if rule.list.matches requestItem then
        if !rule.exclude then accessibleList ++ [requestItem]
        else accessibleList.filter (fun item => rule.list.filterKeep item)
      else accessibleList)
    acc

/-- Outer loop of the accumulation in
`ListAccessPermission.getAccessibleList`: fold `applyListRule` over the
identifier-selected rules, starting from the empty accessible list. -/
def accumulateItems (rules : List ListPermissionRule) (requestedList : List String) :
    List String :=
  rules.foldl (fun acc rule => applyListRule rule requestedList acc) []

/-- `ListAccessPermission.getAccessibleList` when `this.target` is a
`Group` (`src/src/permissions/list/list-permission.ts`, lines 87–111 and
160): select the rules by identifier, then accumulate the requested
items over them. -/
def getAccessibleListGroup (rules : List ListPermissionRule)
    (identifier : String) (requestedList : List String) : List String :=
  accumulateItems (ListAccessPermission.getRulesByAction rules identifier) requestedList

/-- `mergeArrays` (`src/src/utilities/array-utils.ts`):
`Array.from(new Set([...arr1, ...arr2]))` — concatenation deduplicated
keeping the first occurrence of each element (JS `Set` iterates in
insertion order). -/
def mergeArrays (arr1 arr2 : List String) : List String :=
  (arr1 ++ arr2).foldl (fun acc x => if acc.contains x then acc else acc ++ [x]) []

/-- `findSharedMembers` (`src/src/utilities/array-utils.ts`):
`arr1.filter((element) => set2.has(element))` where `set2 = new Set(arr2)`. -/
def findSharedMembers (arr1 arr2 : List String) : List String :=
  arr1.filter (fun element => arr2.contains element)

/-- One list-flavoured permission held by a group: its `type` tag and its
own rules.  Permissions in a group's list were registered by the
`Permission` constructor, so their target is that group and their
`getAccessibleList` runs the Group branch on their own rules. -/
structure GroupListPerm where
  type : String
  rules : List ListPermissionRule

/-- The group a role belongs to, restricted to what the list evaluator
reads from it: its permission list (`Group.getPermissions`). -/
structure ListGroup where
  permissions : List GroupListPerm

/-- `ListAccessPermission.getAccessibleList` when `this.target` is a
`Role` (`src/src/permissions/list/list-permission.ts`, lines 113–158):
compute the role-level accessible list from this permission's own rules;
when the role has a group, merge (set-union) the accessible lists of the
group's permissions of the action's type into `accessibleList` and
return the shared members of that union and the role-level list;
otherwise return the role-level list. -/
def getAccessibleListRole (roleRules : List ListPermissionRule)
    (group : Option ListGroup) (actionType identifier : String)
    (requestedList : List String) : List String :=
  let roleAccessibleList :=
    accumulateItems (ListAccessPermission.getRulesByAction roleRules identifier)
      requestedList
  match group with
  | some g =>
    let listAccessPermissions := g.permissions.filter (fun p => p.type == actionType)
    let accessibleList := listAccessPermissions.foldl
      (fun acc permission =>
        mergeArrays acc (getAccessibleListGroup permission.rules identifier requestedList))
      []
    findSharedMembers accessibleList roleAccessibleList
  | none => roleAccessibleList

/-- A permission as `Permission.getRules` sees it: its `type` tag and its
own `rules` array (the `rules` field holds only the rules passed to the
constructor plus those added with `addRule`; inheritance is resolved at
each `getRules()` call). `α` is the rule payload type (`R[number]`). -/
structure PermH (α : Type) where
  type : String
  rules : List α

/-- A group for rule inheritance: its own permission list and the
optional `inheritFrom` parent group.  Permissions in `perms` were
registered by the `Permission` constructor, so their target is this
group. -/
inductive GroupH (α : Type) where
  | mk (perms : List (PermH α)) (inheritFrom : Option (GroupH α))

/-- `Group.getPermissions(type)` restricted to this model: the group's
own permissions filtered by `type`. -/
def GroupH.permsOfType : GroupH α → String → List (PermH α)
  | .mk perms _, t => perms.filter (fun p => p.type == t)

/-- `group.getPermissions(type).map((permission) => permission.getRules()).flat()`
— the inherited-rules expression of `Permission.getRules`
(`src/src/core/access-control.ts`, lines 336–340 and 343–347).  Each
permission in the group's list targets that group, so its `getRules()`
prepends the rules gathered from the group's `inheritFrom` parent
(filtered to the permission's own type, which the surrounding filter
makes equal to `t`) before its own `rules`. -/
def groupInheritedRules (t : String) : GroupH α → List α
  | .mk perms none =>
    (perms.filter (fun p => p.type == t)).flatMap (fun p => p.rules)
  | .mk perms (some inheritFrom) =>
    (perms.filter (fun p => p.type == t)).flatMap
      (fun p => groupInheritedRules t inheritFrom ++ p.rules)

/-- A permission target, `Role | Group`: a role carries its optional
group back-reference (`Role.getGroup()`), a group carries its structure. -/
inductive TargetH (α : Type) where
  | role (group : Option (GroupH α))
  | group (g : GroupH α)

/-- `Permission.getRules` (`src/src/core/access-control.ts`, lines
333–354): when the target is a `Role` with a group, prepend the flattened
`getRules()` of the group's same-type permissions; when the target is a
`Group` with an `inheritFrom` parent, prepend the flattened `getRules()`
of the parent's same-type permissions; otherwise return a copy of the
own rules.  Evaluated lazily — this reads the current `rules` arrays at
call time. -/
def Permission.getRules (target : TargetH α) (type : String) (rules : List α) :
    List α :=
  match target with
  | .role group =>
    match group with
    | some g => groupInheritedRules type g ++ rules
    | none => rules
  | .group g =>
    match g with
    | .mk _ (some inheritFrom) => groupInheritedRules type inheritFrom ++ rules
    | .mk _ none => rules

/-- `Permission.addRule` (`src/src/core/access-control.ts`, lines
324–327): `this.rules.push(rule)`. -/
def PermH.addRule (p : PermH α) (rule : α) : PermH α :=
  { p with rules := p.rules ++ [rule] }

/-!
State model for the `Role`/`Group` membership operations
(`src/src/core/access-control.ts`): groups are identified by their
`code`, roles by theirs; the mutable state is each group's `roles`
array and each role's `group` back-reference.
-/

/-- The mutable membership state: `groupRoles g` is group `g`'s `roles`
array (as role codes, in push order) and `roleGroup r` is role `r`'s
`group` back-reference (as a group code). -/
structure MembershipState where
  groupRoles : String → List String
  roleGroup : String → Option String

/-- `Group.excludeRole(role)` (`src/src/core/access-control.ts`, lines
258–260): `this.roles = this.roles.filter((_role) => _role !== role)`,
on group `g`. -/
def Group.excludeRole (s : MembershipState) (g r : String) : MembershipState :=
  { s with groupRoles := fun g0 =>
      if g0 == g then (s.groupRoles g).filter (fun r0 => !(r0 == r))
      else s.groupRoles g0 }

/-- `Role.resetGroup()` (`src/src/core/access-control.ts`, lines
487–489): `this.group = undefined`, on role `r`. -/
def Role.resetGroup (s : MembershipState) (r : String) : MembershipState :=
  { s with roleGroup := fun r0 => if r0 == r then none else s.roleGroup r0 }

/-- The assignment branch of `Role.assignGroup(group)`
(`src/src/core/access-control.ts`, lines 416–424) for role `r`: when the
role has no group, set `this.group = group`; the state is unchanged
otherwise (the source throws there — `Group.assignRole` only reaches
this call under the guard `!role.getGroup()`). -/
def Role.assignGroupSet (s : MembershipState) (r g : String) : MembershipState :=
  if (s.roleGroup r).isNone then
    { s with roleGroup := fun r0 => if r0 == r then some g else s.roleGroup r0 }
  else s

/-- `Group.assignRole(role)` (`src/src/core/access-control.ts`, lines
242–253), on group `b` and role `r`: if the role currently has a group,
first `excludeRole` it there and `resetGroup` it; then, if the role is
not already in this group's list and has no group, push it onto
`this.roles` and `role.assignGroup(this)`. -/
def Group.assignRole (s : MembershipState) (b r : String) : MembershipState :=
  let s1 :=
    match s.roleGroup r with
    | some a => Role.resetGroup (Group.excludeRole s a r) r
    | none => s
  if !((s1.groupRoles b).contains r) && (s1.roleGroup r).isNone then
    Role.assignGroupSet
      { s1 with groupRoles := fun g0 =>
          if g0 == b then s1.groupRoles b ++ [r] else s1.groupRoles g0 }
      r b
  else s1

/-- `Role.assignGroup(group)` in full (`src/src/core/access-control.ts`,
lines 416–424), as a fallible call on the role's current `group`
back-reference: sets the group when none is assigned, and throws an
`Error` naming the role and its current group otherwise. -/
def Role.assignGroup (roleCode : String) (current : Option String) (g : String) :
    Except String (Option String) :=
  match current with
  | none => .ok (some g)
  | some currentGroup =>
    .error ("role " ++ roleCode ++ " has already assigned to another group: "
      ++ currentGroup)

/-!
Facade model for `AccessControl.checkPermissions`
(`src/src/core/access-control.ts`, lines 96–139) and
`Role.getPermissions` (lines 471–482).
-/

/-- The `status` field of a `PermissionMessage`. -/
inductive MsgStatus where
  | success
  | failed
deriving DecidableEq

/-- A `PermissionMessage` as the facade observes it: `message`, `status`
and the optional `target` (identified here by the target role's code;
the originating `action` field, always the checked action, is omitted). -/
structure PermissionMessageF where
  message : String
  status : MsgStatus
  target : Option String
deriving DecidableEq

/-- An `Action`: its `roleCode` and its `type` (the kind-specific
`parameters` play no part in the facade's dispatch). -/
structure ActionF where
  roleCode : String
  type : String

/-- A registered permission as the facade sees it: an identity `pid`
(standing for JS object identity), its `type` tag, and its `validate`
method, which returns a `PermissionMessage` or `undefined`. -/
structure PermissionF where
  pid : Nat
  type : String
  validate : ActionF → Option PermissionMessageF

/-- A group as `Role.getPermissions` reads it: its permission list. -/
structure GroupF where
  permissions : List PermissionF

/-- `Group.getPermissions(type?)` (`src/src/core/access-control.ts`,
lines 273–279): the group's permissions, filtered by `type` when one is
given. -/
def GroupF.getPermissions (g : GroupF) (type : Option String) : List PermissionF :=
  match type with
  | some t => g.permissions.filter (fun permission => permission.type == t)
  | none => g.permissions

/-- A role: its `code`, its optional group, and its directly-assigned
permission list. -/
structure RoleF where
  code : String
  group : Option GroupF
  permissions : List PermissionF

/-- `Role.getPermissions(type?)` (`src/src/core/access-control.ts`,
lines 471–482): the own permissions filtered by `type`, prefixed by the
group's permissions of that `type` (empty when the role has no group):
`[...groupPermissions, ...rolePermissions]`. -/
def RoleF.getPermissions (r : RoleF) (type : Option String) : List PermissionF :=
  let rolePermissions :=
    match type with
    | some t => r.permissions.filter (fun permission => permission.type == t)
    | none => r.permissions
  let groupPermissions :=
    match r.group with
    | some g => g.getPermissions type
    | none => []
  groupPermissions ++ rolePermissions

/-- The role registry of an `AccessControl` instance (its `groups`
registry is not read by `checkPermissions`). -/
structure AccessControlF where
  roles : List RoleF

/-- `AccessControl.getRoleByCode` (`src/src/core/access-control.ts`,
lines 146–148): `this.roles.find((role) => role.getCode() === roleCode)`. -/
def AccessControlF.getRoleByCode (ac : AccessControlF) (roleCode : String) :
    Option RoleF :=
  ac.roles.find? (fun role => role.code == roleCode)

/-- One callback invocation performed by `checkPermissions`:
`onFailure(action, permission, message)` (the permission argument is
`null` or a permission's `pid`) or `onSuccess(action, permission)`. -/
inductive CallbackEvent where
  | onFailure (permission : Option Nat) (message : PermissionMessageF)
  | onSuccess (permission : Nat)
deriving DecidableEq

/-- `AccessControl.checkPermissions` (`src/src/core/access-control.ts`,
lines 96–139), returning the ordered list of callback invocations it
performs.  `hasOnFailure` says whether the optional `onFailure` callback
was provided.  Resolve the role by code (failure "Role not found." with
a `null` permission and no target when absent); collect the role's
permissions of the action's type (failure "No matching permissions
found." with the role as target when empty); otherwise validate **only
the last** matching permission (`matchingPermissions.at(-1)`) and report
its failed message, or success.  The method mutates nothing and reports
denials through the callbacks, never by throwing. -/
def checkPermissions (ac : AccessControlF) (action : ActionF)
    (hasOnFailure : Bool) : List CallbackEvent :=
  match ac.getRoleByCode action.roleCode with
  | none =>
    if hasOnFailure then
      [.onFailure none { message := "Role not found.", status := .failed, target := none }]
    else []
  | some role =>
    match (role.getPermissions (some action.type)).getLast? with
    | none =>
      if hasOnFailure then
        [.onFailure none
          { message := "No matching permissions found.", status := .failed,
            target := some role.code }]
      else []
    | some permission =>
      match permission.validate action with
      | some result =>
        if result.status = .failed then
          if hasOnFailure then [.onFailure (some permission.pid) result] else []
        else [.onSuccess permission.pid]
      | none => [.onSuccess permission.pid]

/-- Modelled from the spec (§4.5), not from the source, for comparison
with `checkPermissions`: "iterate matching permissions in order and call
`validate(action)` on each; on the **first** failing result, invoke
onFailure immediately (short-circuit) and stop. If all validate calls
pass (return no failure), invoke onSuccess once."  The success event
reports the last matching permission so that the two functions agree
whenever they both succeed. -/
def checkPermissionsSpecIterate (ac : AccessControlF) (action : ActionF)
    (hasOnFailure : Bool) : List CallbackEvent :=
  match ac.getRoleByCode action.roleCode with
  | none =>
    if hasOnFailure then
      [.onFailure none { message := "Role not found.", status := .failed, target := none }]
    else []
  | some role =>
    let matchingPermissions := role.getPermissions (some action.type)
    match matchingPermissions.getLast? with
    | none =>
      if hasOnFailure then
        [.onFailure none
          { message := "No matching permissions found.", status := .failed,
            target := some role.code }]
      else []
    | some last =>
      let firstFailure := matchingPermissions.findSome?
        (fun permission =>
          match permission.validate action with
          | some result =>
            if result.status = .failed then some (permission.pid, result) else none
          | none => none)
      match firstFailure with
      | some (pid, result) =>
        if hasOnFailure then [.onFailure (some pid) result] else []
      | none => [.onSuccess last.pid]

/-!
Helper lemmas.
-/

theorem routeSelectGo_append (path : String) (xs ys : List RoutePermissionRule)
    (acc : List RoutePermissionRule) :
    routeSelectGo path (xs ++ ys) acc = routeSelectGo path ys (routeSelectGo path xs acc) := by
  induction xs generalizing acc with
  | nil => rfl
  | cons rule rest ih =>
    simp only [List.cons_append, routeSelectGo]
    split_ifs
    · exact ih []
    · exact ih (acc ++ [rule])
    · exact ih acc

theorem componentSelectGo_append (identifier action : String)
    (xs ys : List ComponentPermissionRule) (acc : List ComponentPermissionRule) :
    componentSelectGo identifier action (xs ++ ys) acc =
      componentSelectGo identifier action ys (componentSelectGo identifier action xs acc) := by
  induction xs generalizing acc with
  | nil => rfl
  | cons rule rest ih =>
    simp only [List.cons_append, componentSelectGo]
    split_ifs
    · exact ih []
    · exact ih (acc ++ [rule])
    · exact ih acc

/-!
C2.
-/

/-- C2: single-identifier rule selection (route and component variants)
scans the rules left to right with an accumulator; a matching rule with
`exclude` set resets the accumulator to empty and is itself not added,
while a matching rule without `exclude` is appended — stated as the
step equation for extending the rule sequence on the right.  On
rules = [allow "/a", exclude "/a", allow "/a"] and identifier "/a" the
matched set is exactly the last allow rule, hence non-empty. -/
theorem c2_single_identifier_reset_semantics :
    (∀ (rules : List RoutePermissionRule) (rule : RoutePermissionRule) (path : String),
      RouteAccessPermission.getRulesByAction (rules ++ [rule]) path =
        if rule.route.matches path then
          if rule.exclude then []
          else RouteAccessPermission.getRulesByAction rules path ++ [rule]
        else RouteAccessPermission.getRulesByAction rules path)
    ∧ (∀ (rules : List ComponentPermissionRule) (rule : ComponentPermissionRule)
        (identifier action : String),
      ComponentAccessPermission.getRulesByAction (rules ++ [rule]) identifier action =
        if rule.identifier.matches identifier && rule.actions.contains action then
          if rule.exclude then []
          else ComponentAccessPermission.getRulesByAction rules identifier action ++ [rule]
        else ComponentAccessPermission.getRulesByAction rules identifier action)
    ∧ RouteAccessPermission.getRulesByAction
        [⟨.exact "/a", false, false⟩, ⟨.exact "/a", false, true⟩, ⟨.exact "/a", false, false⟩]
        "/a" = [⟨.exact "/a", false, false⟩] := by
  refine ⟨?_, ?_, ?_⟩
  · intro rules rule path
    rw [RouteAccessPermission.getRulesByAction, routeSelectGo_append]
    simp only [routeSelectGo, RouteAccessPermission.getRulesByAction]
  · intro rules rule identifier action
    rw [ComponentAccessPermission.getRulesByAction, componentSelectGo_append]
    simp only [componentSelectGo, ComponentAccessPermission.getRulesByAction]
  · rfl

/-!
C3.
-/

theorem listSelectGo_eq_filter (identifier : String) (rules : List ListPermissionRule)
    (acc : List ListPermissionRule) :
    listSelectGo identifier rules acc =
      acc ++ rules.filter (fun rule => rule.identifier.matches identifier) := by
  induction rules generalizing acc with
  | nil => simp [listSelectGo]
  | cons rule rest ih =>
    simp only [listSelectGo, List.filter_cons]
    split_ifs with hm
    · simp [hm, ih]
    · simp [hm, ih]

theorem foldl_if_push (p : String → Bool) (l acc : List String) :
    List.foldl (fun a i => if p i then a ++ [i] else a) acc l = acc ++ l.filter p := by
  induction l generalizing acc with
  | nil => simp
  | cons i rest ih =>
    simp only [List.foldl_cons, List.filter_cons]
    by_cases hp : p i = true
    · rw [if_pos hp, if_pos hp, ih]
      simp
    · rw [if_neg hp, if_neg hp, ih]

theorem foldl_if_filter (q keep : String → Bool)
    (hidem : ∀ a : List String, (a.filter keep).filter keep = a.filter keep)
    (l acc : List String) :
    List.foldl (fun a i => if q i then a.filter keep else a) acc l =
      if l.any q then acc.filter keep else acc := by
  induction l generalizing acc with
  | nil => simp
  | cons i rest ih =>
    simp only [List.foldl_cons, List.any_cons]
    by_cases hq : q i = true
    · rw [if_pos hq, ih]
      by_cases ha : rest.any q = true
      · rw [if_pos ha, hidem, if_pos (by simp [hq, ha])]
      · rw [if_neg ha, if_pos (by simp [hq])]
    · rw [if_neg hq, ih]
      by_cases ha : rest.any q = true
      · rw [if_pos ha, if_pos (by simp [ha])]
      · rw [if_neg ha, if_neg (by simp [hq, ha])]

theorem filter_filterKeep_idem (lst : RuleList) (l : List String) :
    (l.filter (fun item => lst.filterKeep item)).filter (fun item => lst.filterKeep item) =
      l.filter (fun item => lst.filterKeep item) := by
  rw [List.filter_filter]
  simp

theorem applyListRule_allow (idp : Pattern) (lst : RuleList)
    (requestedList acc : List String) :
    applyListRule ⟨idp, lst, false⟩ requestedList acc =
      acc ++ requestedList.filter (fun item => lst.matches item) := by
  have hfun : applyListRule ⟨idp, lst, false⟩ requestedList acc =
      List.foldl (fun a i => if lst.matches i then a ++ [i] else a) acc requestedList := by
    simp only [applyListRule]
    congr 1
  rw [hfun, foldl_if_push]

theorem applyListRule_exclude (idp : Pattern) (lst : RuleList)
    (requestedList acc : List String) :
    applyListRule ⟨idp, lst, true⟩ requestedList acc =
      if requestedList.any (fun item => lst.matches item) then
        acc.filter (fun item => lst.filterKeep item)
      else acc := by
  have hfun : applyListRule ⟨idp, lst, true⟩ requestedList acc =
      List.foldl
        (fun a i => if lst.matches i then a.filter (fun item => lst.filterKeep item) else a)
        acc requestedList := by
    simp only [applyListRule]
    congr 1
  rw [hfun, foldl_if_filter]
  exact filter_filterKeep_idem lst

/-- C3: for a Group-targeted list permission, `getAccessibleList` first
selects the rules whose `identifier` matches — a pure, order-preserving
filter with no accumulator reset — and then folds over the selected
rules: a non-exclude rule appends every requested item its `list`
matches, and an exclude rule filters matched items out of the
accumulator (per-item subtraction; the accumulator is never reset).  On
rules = [{id "x", list ["a","b"]}, {id "x", list ["b"], exclude}] with
requested items ["a","b","c"], the accessible list is ["a"]. -/
theorem c3_list_exclusion_per_item :
    (∀ (rules : List ListPermissionRule) (identifier : String)
        (requestedList : List String),
      getAccessibleListGroup rules identifier requestedList =
        accumulateItems
          (rules.filter (fun rule => rule.identifier.matches identifier))
          requestedList)
    ∧ (∀ (idp : Pattern) (lst : RuleList) (requestedList acc : List String),
      applyListRule ⟨idp, lst, false⟩ requestedList acc =
        acc ++ requestedList.filter (fun item => lst.matches item))
    ∧ (∀ (idp : Pattern) (lst : RuleList) (requestedList acc : List String),
      applyListRule ⟨idp, lst, true⟩ requestedList acc =
        if requestedList.any (fun item => lst.matches item) then
          acc.filter (fun item => lst.filterKeep item)
        else acc)
    ∧ getAccessibleListGroup
        [⟨.exact "x", .array ["a", "b"], false⟩, ⟨.exact "x", .array ["b"], true⟩]
        "x" ["a", "b", "c"] = ["a"] := by
  refine ⟨?_, applyListRule_allow, applyListRule_exclude, ?_⟩
  · intro rules identifier requestedList
    rw [getAccessibleListGroup, ListAccessPermission.getRulesByAction,
      listSelectGo_eq_filter]
    simp
  · rfl

/-!
C4.
-/

theorem mem_dedup_foldl (l acc : List String) (x : String) :
    x ∈ List.foldl (fun a y => if a.contains y then a else a ++ [y]) acc l ↔
      x ∈ acc ∨ x ∈ l := by
  induction l generalizing acc with
  | nil => simp
  | cons y rest ih =>
    simp only [List.foldl_cons]
    by_cases hc : acc.contains y = true
    · rw [if_pos hc, ih]
      have hy : y ∈ acc := by simpa using hc
      constructor
      · rintro (h | h)
        · exact Or.inl h
        · exact Or.inr (List.mem_cons_of_mem _ h)
      · rintro (h | h)
        · exact Or.inl h
        · rcases List.mem_cons.mp h with rfl | h
          · exact Or.inl hy
          · exact Or.inr h
    · rw [if_neg hc, ih]
      simp [List.mem_append, or_assoc]

theorem mem_mergeArrays (a b : List String) (x : String) :
    x ∈ mergeArrays a b ↔ x ∈ a ∨ x ∈ b := by
  rw [mergeArrays, mem_dedup_foldl]
  simp

theorem mem_findSharedMembers (a b : List String) (x : String) :
    x ∈ findSharedMembers a b ↔ x ∈ a ∧ x ∈ b := by
  simp [findSharedMembers]

theorem mem_foldl_merge (f : GroupListPerm → List String)
    (ps : List GroupListPerm) (init : List String) (x : String) :
    x ∈ List.foldl (fun acc p => mergeArrays acc (f p)) init ps ↔
      x ∈ init ∨ ∃ p ∈ ps, x ∈ f p := by
  induction ps generalizing init with
  | nil => simp
  | cons p rest ih =>
    simp only [List.foldl_cons]
    rw [ih, mem_mergeArrays]
    constructor
    · rintro ((h | h) | ⟨q, hq, hx⟩)
      · exact Or.inl h
      · exact Or.inr ⟨p, List.mem_cons_self _ _, h⟩
      · exact Or.inr ⟨q, List.mem_cons_of_mem _ hq, hx⟩
    · rintro (h | ⟨q, hq, hx⟩)
      · exact Or.inl (Or.inl h)
      · rcases List.mem_cons.mp hq with rfl | hq
        · exact Or.inl (Or.inr hx)
        · exact Or.inr ⟨q, hq, hx⟩

/-- C4: for a Role-targeted list permission, when the role has no group
`getAccessibleList` returns the role-level accessible list (the
accumulation over the role's own identifier-selected rules) unchanged;
when the role belongs to a group, an item is in the result exactly when
it is in the role-level accessible list and at least one of the group's
permissions of the requested type grants it — the shared members of the
role-level list and the duplicate-eliminating union (`mergeArrays`) of
the group-level accessible lists (`findSharedMembers`). -/
theorem c4_role_group_intersection :
    (∀ (roleRules : List ListPermissionRule) (actionType identifier : String)
        (requestedList : List String),
      getAccessibleListRole roleRules none actionType identifier requestedList =
        accumulateItems (ListAccessPermission.getRulesByAction roleRules identifier)
          requestedList)
    ∧ (∀ (roleRules : List ListPermissionRule) (g : ListGroup)
        (actionType identifier : String) (requestedList : List String) (x : String),
      x ∈ getAccessibleListRole roleRules (some g) actionType identifier requestedList ↔
        x ∈ accumulateItems (ListAccessPermission.getRulesByAction roleRules identifier)
              requestedList
          ∧ ∃ p ∈ g.permissions.filter (fun p => p.type == actionType),
              x ∈ getAccessibleListGroup p.rules identifier requestedList) := by
  constructor
  · intro roleRules actionType identifier requestedList
    rfl
  · intro roleRules g actionType identifier requestedList x
    show x ∈ findSharedMembers _ _ ↔ _
    rw [mem_findSharedMembers, mem_foldl_merge]
    simp only [List.not_mem_nil, false_or]
    exact and_comm

/-!
C5.
-/

theorem rules_subset_groupInheritedRules {α : Type} (t : String)
    (perms : List (PermH α)) (parent : Option (GroupH α)) (p : PermH α)
    (hp : p ∈ perms) (ht : p.type = t) {x : α} (hx : x ∈ p.rules) :
    x ∈ groupInheritedRules t (.mk perms parent) := by
  cases parent with
  | none =>
    simp only [groupInheritedRules]
    exact List.mem_flatMap.mpr ⟨p, List.mem_filter.mpr ⟨hp, by simp [ht]⟩, hx⟩
  | some gp =>
    simp only [groupInheritedRules]
    exact List.mem_flatMap.mpr
      ⟨p, List.mem_filter.mpr ⟨hp, by simp [ht]⟩, List.mem_append_right _ hx⟩

/-- C5: `Permission.getRules` combines rules lazily at each call — it
returns the flattened same-type rules gathered from the target's parent
in the hierarchy (the role's group for a Role target, the `inheritFrom`
parent for a Group target) followed by the permission's own rules, and
just the own rules when there is no parent; consequently a rule pushed
(`addRule`) onto a parent-group permission of the same type after the
child permission came into being is contained in a subsequent
`getRules()` result. -/
theorem c5_lazy_rule_combination :
    (∀ {α : Type} (g : GroupH α) (t : String) (own : List α),
      Permission.getRules (.role (some g)) t own = groupInheritedRules t g ++ own)
    ∧ (∀ {α : Type} (perms : List (PermH α)) (parent : GroupH α) (t : String)
        (own : List α),
      Permission.getRules (.group (.mk perms (some parent))) t own =
        groupInheritedRules t parent ++ own)
    ∧ (∀ {α : Type} (t : String) (own : List α),
      Permission.getRules (α := α) (.role none) t own = own)
    ∧ (∀ {α : Type} (perms : List (PermH α)) (t : String) (own : List α),
      Permission.getRules (.group (.mk perms none)) t own = own)
    ∧ (∀ {α : Type} (pre post : List (PermH α)) (p : PermH α)
        (parent : Option (GroupH α)) (rule : α) (t : String) (own : List α),
      p.type = t →
      rule ∈ Permission.getRules
        (.role (some (.mk (pre ++ p.addRule rule :: post) parent))) t own) := by
  refine ⟨fun g t own => rfl, fun perms parent t own => rfl, fun t own => rfl,
    fun perms t own => rfl, ?_⟩
  intro α pre post p parent rule t own ht
  show rule ∈ groupInheritedRules t (.mk (pre ++ p.addRule rule :: post) parent) ++ own
  refine List.mem_append_left _ ?_
  refine rules_subset_groupInheritedRules t _ parent (p.addRule rule) ?_ ht ?_
  · exact List.mem_append_right _ (List.mem_cons_self _ _)
  · exact List.mem_append_right _ (List.mem_cons_self _ _)

/-- Witness for the lazy-combination consequence of C5: with the parent
group holding one navigation permission with rules `[0]`, pushing rule
`1` onto it makes `1` visible in a role-targeted permission's
`getRules()` over the updated hierarchy. -/
theorem c5_lazy_rule_combination_witness :
    (PermH.type ⟨"navigation", [0]⟩ = "navigation")
    ∧ (1 : Nat) ∈ Permission.getRules
        (.role (some (.mk ([] ++ PermH.addRule ⟨"navigation", [0]⟩ 1 :: []) none)))
        "navigation" [2] :=
  ⟨rfl, c5_lazy_rule_combination.2.2.2.2 [] [] ⟨"navigation", [0]⟩ none 1 "navigation" [2] rfl⟩

/-!
C6.
-/

/-- C6: `Group.assignRole` is the supported move path — starting from a
state where role `r` belongs to group `a` (its back-reference points at
`a`, it is in `a`'s role list, and in no other group's list), calling
`assignRole` on a different group `b` first detaches the role from `a`
(`excludeRole` plus `resetGroup`) and then attaches it to `b`;
afterwards the role's group is `b`, it is in `b`'s role list, and it is
in no other group's list — in particular `a`'s list no longer contains
it. -/
theorem c6_assign_role_moves (s : MembershipState) (a b r : String)
    (hgrp : s.roleGroup r = some a)
    (hmem : r ∈ s.groupRoles a)
    (honly : ∀ g, g ≠ a → r ∉ s.groupRoles g)
    (hab : a ≠ b) :
    (Group.assignRole s b r).roleGroup r = some b
    ∧ r ∈ (Group.assignRole s b r).groupRoles b
    ∧ r ∉ (Group.assignRole s b r).groupRoles a
    ∧ ∀ g, g ≠ b → r ∉ (Group.assignRole s b r).groupRoles g := by
  have hba : b ≠ a := fun h => hab h.symm
  have h1g : (Role.resetGroup (Group.excludeRole s a r) r).roleGroup r = none := by
    simp [Role.resetGroup, Group.excludeRole]
  have h1b : (Role.resetGroup (Group.excludeRole s a r) r).groupRoles b =
      s.groupRoles b := by
    simp [Role.resetGroup, Group.excludeRole, hba]
  have h1a : (Role.resetGroup (Group.excludeRole s a r) r).groupRoles a =
      (s.groupRoles a).filter (fun r0 => !(r0 == r)) := by
    simp [Role.resetGroup, Group.excludeRole]
  have h1other : ∀ g, g ≠ a →
      (Role.resetGroup (Group.excludeRole s a r) r).groupRoles g = s.groupRoles g := by
    intro g hg
    simp [Role.resetGroup, Group.excludeRole, hg]
  have hrb : r ∉ s.groupRoles b := honly b hba
  have hguard :
      (!((Role.resetGroup (Group.excludeRole s a r) r).groupRoles b).contains r
        && ((Role.resetGroup (Group.excludeRole s a r) r).roleGroup r).isNone) = true := by
    rw [h1b, h1g]
    simp only [Option.isNone_none, Bool.and_true, Bool.not_eq_true']
    rw [List.contains]
    exact (Bool.not_eq_true _).mp (fun h => hrb (List.elem_iff.mp h))
  have hstep : Group.assignRole s b r =
      { groupRoles := fun g0 =>
          if g0 == b then
            (Role.resetGroup (Group.excludeRole s a r) r).groupRoles b ++ [r]
          else (Role.resetGroup (Group.excludeRole s a r) r).groupRoles g0,
        roleGroup := fun r0 =>
          if r0 == r then some b
          else (Role.resetGroup (Group.excludeRole s a r) r).roleGroup r0 } := by
    rw [Group.assignRole, hgrp]
    rw [if_pos hguard]
    simp only [Role.assignGroupSet]
    rw [h1g]
    simp
  rw [hstep]
  refine ⟨by simp, ?_, ?_, ?_⟩
  · simp
  · show r ∉ (if (a == b) = true then _ else _)
    rw [if_neg (by simp [hab]), h1a]
    intro hr
    have := (List.mem_filter.mp hr).2
    simp at this
  · intro g hg
    show r ∉ (if (g == b) = true then _ else _)
    rw [if_neg (by simp [hg])]
    by_cases hga : g = a
    · subst hga
      rw [h1a]
      intro hr
      have := (List.mem_filter.mp hr).2
      simp at this
    · rw [h1other g hga]
      exact honly g hga

/-- Concrete membership state for the C6 witness: role "r" in group
"A", group "B" empty. -/
def c6State : MembershipState :=
  { groupRoles := fun g => if g == "A" then ["r"] else [],
    roleGroup := fun r0 => if r0 == "r" then some "A" else none }

/-- Witness for C6: in the concrete state, role "r" belongs to group
"A" only, and after `Group.assignRole` on "B" it belongs only to "B". -/
theorem c6_assign_role_moves_witness :
    (c6State.roleGroup "r" = some "A")
    ∧ "r" ∈ c6State.groupRoles "A"
    ∧ (∀ g, g ≠ "A" → "r" ∉ c6State.groupRoles g)
    ∧ ("A" : String) ≠ "B"
    ∧ (Group.assignRole c6State "B" "r").roleGroup "r" = some "B"
    ∧ "r" ∈ (Group.assignRole c6State "B" "r").groupRoles "B"
    ∧ "r" ∉ (Group.assignRole c6State "B" "r").groupRoles "A" := by
  have honly : ∀ g, g ≠ "A" → "r" ∉ c6State.groupRoles g := by
    intro g hg
    show "r" ∉ (if (g == "A") = true then ["r"] else [])
    rw [if_neg (by simp [hg])]
    exact List.not_mem_nil _
  have h := c6_assign_role_moves c6State "A" "B" "r" rfl
    (List.mem_cons_self _ _) honly (by decide)
  exact ⟨rfl, List.mem_cons_self _ _, honly, by decide, h.1, h.2.1, h.2.2.1⟩

/-!
C7.
-/

/-- C7 counterexample: the claim says `Role.assignGroup` throws exactly
when the role already belongs to a **different** group.  But the source
guards only on `!this.group`: a role whose group is "G" throws on
`assignGroup` of that very same group "G", where "G" is not different
from "G" — so the throws-iff-different-group claim is false.  (Stated as
the negation of the claim's iff, exhibited at role "r", current group
"G", argument "G".) -/
theorem c7_counterexample :
    ¬ (∀ (code : String) (current : Option String) (g : String),
      (∃ e, Role.assignGroup code current g = .error e) ↔
        ∃ g0, current = some g0 ∧ g0 ≠ g) := by
  intro h
  have herr : ∃ e, Role.assignGroup "r" (some "G") "G" = .error e := ⟨_, rfl⟩
  obtain ⟨g0, hg0, hne⟩ := (h "r" (some "G") "G").mp herr
  rw [Option.some_inj] at hg0
  exact hne (hg0.symm ▸ rfl)

/-- C7 amended: `Role.assignGroup` throws if and only if the role
already belongs to **some** group — even reassignment of the same group
throws; when the role has no group it sets the role's group to the
argument and does not throw. -/
theorem c7_assign_group_throws_iff_assigned :
    (∀ (code g : String), Role.assignGroup code none g = .ok (some g))
    ∧ (∀ (code : String) (current : Option String) (g : String),
      (∃ e, Role.assignGroup code current g = .error e) ↔ current ≠ none) := by
  refine ⟨fun code g => rfl, ?_⟩
  intro code current g
  cases current with
  | none =>
    simp only [Role.assignGroup]
    constructor
    · rintro ⟨e, he⟩
      cases he
    · intro h
      exact absurd rfl h
  | some currentGroup =>
    simp only [Role.assignGroup]
    constructor
    · intro _
      exact Option.some_ne_none _
    · intro _
      exact ⟨_, rfl⟩

/-!
C8.
-/

/-- C8: `Role.getPermissions(t)` returns the role's group's permissions
of type `t` — empty when the role has no group — concatenated with the
role's directly-assigned permissions of type `t`, group-first, with both
filters preserving relative order; membership is characterized
accordingly. -/
theorem c8_get_permissions_group_first :
    (∀ (code : String) (own : List PermissionF) (t : String),
      RoleF.getPermissions ⟨code, none, own⟩ (some t) =
        own.filter (fun permission => permission.type == t))
    ∧ (∀ (code : String) (g : GroupF) (own : List PermissionF) (t : String),
      RoleF.getPermissions ⟨code, some g, own⟩ (some t) =
        g.permissions.filter (fun permission => permission.type == t)
          ++ own.filter (fun permission => permission.type == t))
    ∧ (∀ (r : RoleF) (t : String) (p : PermissionF),
      p ∈ r.getPermissions (some t) ↔
        (p.type = t ∧ ((∃ g, r.group = some g ∧ p ∈ g.permissions) ∨ p ∈ r.permissions))) := by
  refine ⟨fun code own t => rfl, fun code g own t => rfl, ?_⟩
  intro r t p
  obtain ⟨code, group, own⟩ := r
  cases group with
  | none =>
    show p ∈ [] ++ own.filter (fun permission => permission.type == t) ↔ _
    simp [List.mem_filter, and_comm]
  | some g =>
    show p ∈ g.permissions.filter (fun permission => permission.type == t)
        ++ own.filter (fun permission => permission.type == t) ↔ _
    simp only [List.mem_append, List.mem_filter, beq_iff_eq, Option.some_inj]
    constructor
    · rintro (⟨hm, ht⟩ | ⟨hm, ht⟩)
      · exact ⟨ht, Or.inl ⟨g, rfl, hm⟩⟩
      · exact ⟨ht, Or.inr hm⟩
    · rintro ⟨ht, ⟨g0, hg0, hm⟩ | hm⟩
      · cases hg0
        exact Or.inl ⟨hm, ht⟩
      · exact Or.inr ⟨hm, ht⟩

/-!
C9.
-/

/-- C9: when no registered role's code equals the action's `roleCode`,
`checkPermissions` invokes `onFailure` (when provided) exactly once with
a failed "Role not found." message carrying no target and a `null`
permission, performs no callback at all when `onFailure` is absent, and
never invokes `onSuccess`.  The embedding of `checkPermissions` is a
pure function of the registries, mirroring that the source method only
reads `this.roles` and mutates nothing. -/
theorem c9_role_not_found_failure (ac : AccessControlF) (action : ActionF)
    (h : ac.getRoleByCode action.roleCode = none) :
    checkPermissions ac action true =
      [.onFailure none { message := "Role not found.", status := .failed, target := none }]
    ∧ checkPermissions ac action false = []
    ∧ ∀ (hasOnFailure : Bool) (pid : Nat),
        CallbackEvent.onSuccess pid ∉ checkPermissions ac action hasOnFailure := by
  refine ⟨?_, ?_, ?_⟩
  · rw [checkPermissions, h]
    rfl
  · rw [checkPermissions, h]
    rfl
  · intro hasOnFailure pid
    rw [checkPermissions, h]
    cases hasOnFailure with
    | true => simp
    | false => simp

/-- Witness for C9: an `AccessControl` with an empty role registry and
an action for role "r". -/
theorem c9_role_not_found_failure_witness :
    (AccessControlF.getRoleByCode ⟨[]⟩ (ActionF.roleCode ⟨"r", "navigation"⟩) = none)
    ∧ checkPermissions ⟨[]⟩ ⟨"r", "navigation"⟩ true =
        [.onFailure none { message := "Role not found.", status := .failed, target := none }]
    ∧ checkPermissions ⟨[]⟩ ⟨"r", "navigation"⟩ false = [] :=
  ⟨rfl, (c9_role_not_found_failure ⟨[]⟩ ⟨"r", "navigation"⟩ rfl).1,
    (c9_role_not_found_failure ⟨[]⟩ ⟨"r", "navigation"⟩ rfl).2.1⟩

/-!
C10.
-/

/-- C10: with both callbacks provided, every `checkPermissions` call
performs exactly one callback invocation — the event list is a
singleton, so exactly one of `onFailure`/`onSuccess` runs, exactly once,
and the call returns; the embedding is a total function, mirroring that
the source reports every denial through the callbacks and none of its
branches throws. -/
theorem c10_exactly_one_callback (ac : AccessControlF) (action : ActionF) :
    ∃ e, checkPermissions ac action true = [e] := by
  rw [checkPermissions]
  split
  · exact ⟨_, rfl⟩
  · split
    · exact ⟨_, rfl⟩
    · split
      · rename_i result hv
        by_cases hs : result.status = MsgStatus.failed
        · rw [if_pos hs]
          exact ⟨_, rfl⟩
        · rw [if_neg hs]
          exact ⟨_, rfl⟩
      · exact ⟨_, rfl⟩

/-!
C1.
-/

/-- A failed validation message used in the C1 configuration. -/
def c1FailMessage : PermissionMessageF :=
  { message := "route access is not allowed", status := .failed, target := none }

/-- First registered navigation permission of the C1 role: its
`validate` always fails. -/
def c1PermFail : PermissionF :=
  { pid := 1, type := "navigation", validate := fun _ => some c1FailMessage }

/-- Second registered navigation permission of the C1 role: its
`validate` always passes (returns `undefined`). -/
def c1PermPass : PermissionF :=
  { pid := 2, type := "navigation", validate := fun _ => none }

/-- The C1 role: no group, two directly-assigned navigation permissions,
the failing one first. -/
def c1Role : RoleF := { code := "r", group := none, permissions := [c1PermFail, c1PermPass] }

/-- The C1 access control: just the role above. -/
def c1AC : AccessControlF := { roles := [c1Role] }

/-- The C1 action: role "r", type "navigation". -/
def c1Action : ActionF := { roleCode := "r", type := "navigation" }

/-- C1 counterexample: the claim demands that `checkPermissions`
validate every matching permission in order and invoke `onFailure` on
the first failing `validate`.  In the configuration above the first
matching permission always fails validation, yet the source — which
validates only `matchingPermissions.at(-1)` — invokes `onSuccess`; the
spec-mandated iterate-and-short-circuit evaluation
(`checkPermissionsSpecIterate`) invokes `onFailure` with the first
permission instead. -/
theorem c1_counterexample :
    checkPermissions c1AC c1Action true = [.onSuccess 2]
    ∧ checkPermissionsSpecIterate c1AC c1Action true = [.onFailure (some 1) c1FailMessage]
    ∧ c1PermFail ∈ c1Role.getPermissions (some c1Action.type)
    ∧ c1PermFail.validate c1Action = some c1FailMessage
    ∧ c1FailMessage.status = .failed := by
  refine ⟨rfl, rfl, ?_, rfl, rfl⟩
  have h : c1Role.getPermissions (some c1Action.type) = [c1PermFail, c1PermPass] := rfl
  rw [h]
  exact List.mem_cons_self _ _

/-- C1 amended: whenever the action's role resolves and its matching
permissions form `ps ++ [p]`, `checkPermissions` validates only the last
matching permission `p`: it invokes `onFailure` with `p` exactly when
`p.validate` returns a failed message and `onSuccess` with `p`
otherwise — the earlier matching permissions `ps` are never consulted
(the result does not depend on them). -/
theorem c1_last_permission_only (ac : AccessControlF) (action : ActionF)
    (role : RoleF) (ps : List PermissionF) (p : PermissionF)
    (hrole : ac.getRoleByCode action.roleCode = some role)
    (hperms : role.getPermissions (some action.type) = ps ++ [p]) :
    checkPermissions ac action true =
      match p.validate action with
      | some result =>
        if result.status = .failed then [.onFailure (some p.pid) result]
        else [.onSuccess p.pid]
      | none => [.onSuccess p.pid] := by
  rw [checkPermissions, hrole]
  show (match (role.getPermissions (some action.type)).getLast? with
    | none => _
    | some permission => _) = _
  rw [hperms, List.getLast?_concat]
  show (match p.validate action with
    | some result =>
      if result.status = MsgStatus.failed then
        if true = true then [CallbackEvent.onFailure (some p.pid) result] else []
      else [CallbackEvent.onSuccess p.pid]
    | none => [CallbackEvent.onSuccess p.pid]) = _
  cases p.validate action with
  | none => rfl
  | some result =>
    by_cases hs : result.status = MsgStatus.failed
    · simp [hs]
    · simp [hs]

/-- Witness for C1 amended: the concrete C1 configuration, whose
matching permissions split as `[c1PermFail] ++ [c1PermPass]`. -/
theorem c1_last_permission_only_witness :
    (AccessControlF.getRoleByCode c1AC c1Action.roleCode = some c1Role)
    ∧ (RoleF.getPermissions c1Role (some c1Action.type) = [c1PermFail] ++ [c1PermPass])
    ∧ checkPermissions c1AC c1Action true =
        match c1PermPass.validate c1Action with
        | some result =>
          if result.status = .failed then [.onFailure (some c1PermPass.pid) result]
          else [.onSuccess c1PermPass.pid]
        | none => [.onSuccess c1PermPass.pid] :=
  ⟨rfl, rfl,
    c1_last_permission_only c1AC c1Action c1Role [c1PermFail] c1PermPass rfl rfl⟩

end PermitCore
